import Mathlib

/-!
Verification development for the watermarking / adversarial-evaluation
repository.  The Python sources are shallowly embedded: image tensors become
nested lists of rationals, float arithmetic that can produce NaN or infinities
is modelled by the type ExtQ below, and stateful loops become explicit folds.
Spatial dimensions (height, width) are flattened into a single list, which is
faithful because every reduction in the embedded code (mean, amin, amax over
dims (2,3)) acts on both spatial dimensions jointly and every other operation
is elementwise.
-/

/-- Extended rationals modelling IEEE-754 float values as produced by torch:
a finite value, NaN, or a signed infinity.  Rationals stand in for the finite
floats; rounding is immaterial to the properties proved here, while the
NaN/infinity propagation rules are modelled exactly. -/
inductive ExtQ where
  | fin : ℚ → ExtQ
  | nan : ExtQ
  | pinf : ExtQ
  | ninf : ExtQ
deriving DecidableEq, Repr

namespace ExtQ

/-- IEEE addition: NaN propagates, opposite infinities give NaN. -/
def add : ExtQ → ExtQ → ExtQ
  | fin a, fin b => fin (a + b)
  | nan, _ => nan
  | _, nan => nan
  | pinf, ninf => nan
  | ninf, pinf => nan
  | pinf, _ => pinf
  | _, pinf => pinf
  | ninf, _ => ninf
  | _, ninf => ninf

/-- IEEE negation. -/
def neg : ExtQ → ExtQ
  | fin a => fin (-a)
  | nan => nan
  | pinf => ninf
  | ninf => pinf

/-- IEEE subtraction. -/
def sub (x y : ExtQ) : ExtQ := add x (neg y)

/-- IEEE multiplication: NaN propagates, zero times infinity is NaN. -/
def mul : ExtQ → ExtQ → ExtQ
  | fin a, fin b => fin (a * b)
  | nan, _ => nan
  | _, nan => nan
  | pinf, pinf => pinf
  | pinf, ninf => ninf
  | ninf, pinf => ninf
  | ninf, ninf => pinf
  | pinf, fin b => if b = 0 then nan else if 0 < b then pinf else ninf
  | fin a, pinf => if a = 0 then nan else if 0 < a then pinf else ninf
  | ninf, fin b => if b = 0 then nan else if 0 < b then ninf else pinf
  | fin a, ninf => if a = 0 then nan else if 0 < a then ninf else pinf

/-- IEEE division: 0/0 is NaN, nonzero/0 is a signed infinity, NaN propagates.
Rationals have no signed zero; the degenerate sign conventions for dividing an
infinity by zero do not arise in the embedded code paths. -/
def div : ExtQ → ExtQ → ExtQ
  | fin a, fin b =>
      if b = 0 then (if a = 0 then nan else if 0 < a then pinf else ninf)
      else fin (a / b)
  | nan, _ => nan
  | _, nan => nan
  | fin _, pinf => fin 0
  | fin _, ninf => fin 0
  | pinf, pinf => nan
  | pinf, ninf => nan
  | ninf, pinf => nan
  | ninf, ninf => nan
  | pinf, fin b => if 0 ≤ b then pinf else ninf
  | ninf, fin b => if 0 ≤ b then ninf else pinf

/-- torch.sign: NaN propagates, infinities map to plus or minus one. -/
def sign : ExtQ → ExtQ
  | fin a => fin (if a < 0 then -1 else if a = 0 then 0 else 1)
  | nan => nan
  | pinf => fin 1
  | ninf => fin (-1)

/-- Absolute value. -/
def abs : ExtQ → ExtQ
  | fin a => fin |a|
  | nan => nan
  | pinf => pinf
  | ninf => pinf

/-- torch maximum with NaN propagation. -/
def max : ExtQ → ExtQ → ExtQ
  | nan, _ => nan
  | _, nan => nan
  | fin a, fin b => fin (Max.max a b)
  | pinf, _ => pinf
  | _, pinf => pinf
  | ninf, y => y
  | x, ninf => x

/-- torch minimum with NaN propagation. -/
def min : ExtQ → ExtQ → ExtQ
  | nan, _ => nan
  | _, nan => nan
  | fin a, fin b => fin (Min.min a b)
  | ninf, _ => ninf
  | _, ninf => ninf
  | pinf, y => y
  | x, pinf => x

/-- torch.clamp(x, lo, hi): min(max(x, lo), hi); a NaN input stays NaN. -/
def clamp (x lo hi : ExtQ) : ExtQ := min (max x lo) hi

end ExtQ

/-- L1 norm of a flattened tensor, as computed by torch.norm with p = 1:
the sum of the absolute values of all elements. -/
def l1norm (g : List ExtQ) : ExtQ :=
  g.foldr (fun x acc => ExtQ.add (ExtQ.abs x) acc) (ExtQ.fin 0)

/-- Mean of a list of rationals (torch mean over the flattened spatial dims). -/
def listMean (l : List ℚ) : ℚ := l.sum / l.length

/-- Minimum of a list of rationals (torch amin over the spatial dims); the
default for an empty list never arises in the embedded code paths. -/
def listMin : List ℚ → ℚ
  | [] => 0
  | h :: t => t.foldl Min.min h

/-- Maximum of a list of rationals (torch amax over the spatial dims). -/
def listMax : List ℚ → ℚ
  | [] => 0
  | h :: t => t.foldl Max.max h

/-- One (sample, channel) slice of constrain_image from
src/utils/image_utils.py, with the per-channel mean supplied by the caller.
cand and ref are the flattened spatial values of the candidate and reference
for this channel; all reductions in the source act per (sample, channel). -/
def constrainChannelWithMean (cand ref : List ℚ) (dmean : ℚ) (max_delta : ℚ) :
    List ExtQ :=
  let delta := List.zipWith (· - ·) cand ref
  let delta_adjusted := delta.map (fun v => v - dmean)
  let delta_range := listMax delta - listMin delta
  let delta_adjusted_range := listMax delta_adjusted - listMin delta_adjusted
  let scale := ExtQ.div (ExtQ.fin delta_range) (ExtQ.fin delta_adjusted_range)
  let delta_adjusted_scaled := delta_adjusted.map (fun v => ExtQ.mul (ExtQ.fin v) scale)
  let delta_clipped :=
    delta_adjusted_scaled.map (fun v => ExtQ.clamp v (ExtQ.fin (-max_delta)) (ExtQ.fin max_delta))
  List.zipWith (fun r v => ExtQ.add (ExtQ.fin r) v) ref delta_clipped

/-- One (sample, channel) slice of constrain_image: the subtracted mean is the
mean of delta over this channel's spatial positions, embedding
delta.mean(dim=(2, 3), keepdim=True) from the source. -/
def constrainChannel (cand ref : List ℚ) (max_delta : ℚ) : List ExtQ :=
  constrainChannelWithMean cand ref (listMean (List.zipWith (· - ·) cand ref)) max_delta

/-- constrain_image from src/utils/image_utils.py.  A tensor is a list of
samples, each a list of channels, each a flattened list of spatial values.
Every reduction in the source (mean, amin, amax) is over dims (2,3) with
keepdim, so the whole computation factors into independent
(sample, channel) slices. -/
def constrain_image (x_M_hat x_M : List (List (List ℚ))) (max_delta : ℚ) :
    List (List (List ExtQ)) :=
  List.zipWith
    (fun cs rs => List.zipWith (fun cc rc => constrainChannel cc rc max_delta) cs rs)
    x_M_hat x_M

/-- The variant of constrain_image described by the claim that the subtracted
mean is a single mean per sample, taken jointly over all channels and spatial
positions.  Differs from the source only in the mean used. -/
def constrain_image_sampleMean (x_M_hat x_M : List (List (List ℚ))) (max_delta : ℚ) :
    List (List (List ExtQ)) :=
  List.zipWith
    (fun cs rs =>
      let delta2 := List.zipWith (fun cc rc => List.zipWith (· - ·) cc rc) cs rs
      let jointMean := listMean delta2.flatten
      List.zipWith (fun cc rc => constrainChannelWithMean cc rc jointMean max_delta) cs rs)
    x_M_hat x_M

/-- The spatial range of the mean-removed delta for one (sample, channel)
slice: the quantity whose vanishing makes the rescale in constrain_image
divide zero by zero. -/
def adjustedRange (cand ref : List ℚ) : ℚ :=
  let delta := List.zipWith (· - ·) cand ref
  let delta_adjusted := delta.map (fun v => v - listMean delta)
  listMax delta_adjusted - listMin delta_adjusted

/-- The elementwise delta-budget relation: the output element is a finite
value within max_delta of the reference element. -/
def FinWithin (max_delta : ℚ) (y : ExtQ) (r : ℚ) : Prop :=
  match y with
  | ExtQ.fin w => |w - r| ≤ max_delta
  | _ => False

/-- Elementwise delta-budget invariant for a whole output tensor against its
reference tensor. -/
def WithinBudget (out : List (List (List ExtQ))) (ref : List (List (List ℚ)))
    (max_delta : ℚ) : Prop :=
  List.Forall₂ (List.Forall₂ (List.Forall₂ (FinWithin max_delta))) out ref

/-- Per-channel side conditions under which the rescale in constrain_image is
well defined: the reference channel is no longer than the candidate channel
and the mean-removed delta has nonzero spatial range. -/
def ChannelOK (cand ref : List ℚ) : Prop :=
  ref.length ≤ cand.length ∧ adjustedRange cand ref ≠ 0

lemma forall₂_zipWith_of {α β γ : Type} {Q : α → β → Prop} {P : γ → β → Prop}
    (f : α → β → γ) (h : ∀ a b, Q a b → P (f a b) b) :
    ∀ {l₁ : List α} {l₂ : List β}, List.Forall₂ Q l₁ l₂ →
      List.Forall₂ P (List.zipWith f l₁ l₂) l₂ := by
  intro l₁ l₂ hf
  induction hf with
  | nil => simp
  | cons ha _ ih => exact List.Forall₂.cons (h _ _ ha) ih

lemma budget_of_clipped (d : ℚ) :
    ∀ (ref : List ℚ) (cl : List ExtQ),
      (∀ y ∈ cl, ∃ c, y = ExtQ.fin c ∧ |c| ≤ d) → ref.length ≤ cl.length →
      List.Forall₂ (FinWithin d)
        (List.zipWith (fun r v => ExtQ.add (ExtQ.fin r) v) ref cl) ref := by
  intro ref
  induction ref with
  | nil => intro cl _ _; simp
  | cons r rs ih =>
    intro cl hc hl
    cases cl with
    | nil => simp at hl
    | cons y ys =>
      obtain ⟨c, hy, hcle⟩ := hc y (by simp)
      refine List.Forall₂.cons ?_ (ih ys (fun z hz => hc z (by simp [hz])) (by simpa using hl))
      subst hy
      simpa [ExtQ.add, FinWithin, add_sub_cancel_left] using hcle

lemma clamp_fin_bound (x d : ℚ) (hd : 0 ≤ d) :
    ∃ c, ExtQ.clamp (ExtQ.fin x) (ExtQ.fin (-d)) (ExtQ.fin d) = ExtQ.fin c ∧ |c| ≤ d := by
  refine ⟨Min.min (Max.max x (-d)) d, by simp [ExtQ.clamp, ExtQ.max, ExtQ.min], ?_⟩
  rw [abs_le]
  exact ⟨le_min (le_max_right x (-d)) (by linarith), min_le_right _ _⟩

lemma div_fin_of_ne {a b : ℚ} (h : b ≠ 0) :
    ExtQ.div (ExtQ.fin a) (ExtQ.fin b) = ExtQ.fin (a / b) := by
  simp [ExtQ.div, h]

/-- Budget bound for one channel slice when the rescale denominator is
nonzero. -/
lemma constrainChannel_budget (cand ref : List ℚ) (d : ℚ) (hd : 0 ≤ d)
    (hlen : ref.length ≤ cand.length) (hr : adjustedRange cand ref ≠ 0) :
    List.Forall₂ (FinWithin d) (constrainChannel cand ref d) ref := by
  unfold adjustedRange at hr
  simp only at hr
  show List.Forall₂ (FinWithin d)
    (constrainChannelWithMean cand ref
      (listMean (List.zipWith (· - ·) cand ref)) d) ref
  unfold constrainChannelWithMean
  simp only [div_fin_of_ne hr, List.map_map]
  apply budget_of_clipped
  · intro y hy
    simp only [List.mem_map, Function.comp] at hy
    obtain ⟨v, _, hv⟩ := hy
    obtain ⟨c, hc, hcb⟩ := clamp_fin_bound
      ((v - listMean (List.zipWith (· - ·) cand ref)) *
        ((listMax (List.zipWith (· - ·) cand ref) -
              listMin (List.zipWith (· - ·) cand ref)) /
            (listMax
                ((List.zipWith (· - ·) cand ref).map
                  (fun w => w - listMean (List.zipWith (· - ·) cand ref))) -
              listMin
                ((List.zipWith (· - ·) cand ref).map
                  (fun w => w - listMean (List.zipWith (· - ·) cand ref)))))) d hd
    refine ⟨c, ?_, hcb⟩
    rw [← hv, ← hc]
    rfl
  · simp only [List.length_map, List.length_zipWith]
    omega

/-- C1 (amended): whenever every (sample, channel) slice has a mean-removed
delta of nonzero spatial range, every element of the constrain_image output is
finite and deviates from the reference by at most max_delta. -/
theorem constrain_image_within_budget
    (cand ref : List (List (List ℚ))) (d : ℚ) (hd : 0 ≤ d)
    (hok : List.Forall₂ (List.Forall₂ ChannelOK) cand ref) :
    WithinBudget (constrain_image cand ref d) ref d := by
  unfold WithinBudget constrain_image
  refine forall₂_zipWith_of _ ?_ hok
  intro cs rs hcs
  refine forall₂_zipWith_of _ ?_ hcs
  intro cc rc h
  exact constrainChannel_budget cc rc d hd h.1 h.2

lemma constrain_image_nan_eval :
    constrain_image [[[(0:ℚ)]]] [[[0]]] 1 = [[[ExtQ.nan]]] := by
  norm_num [constrain_image, constrainChannel, constrainChannelWithMean,
    listMean, listMin, listMax, ExtQ.div, ExtQ.mul, ExtQ.clamp, ExtQ.max,
    ExtQ.min, ExtQ.add]

/-- Witness for C1's amended theorem at a concrete non-degenerate input. -/
theorem constrain_image_within_budget_witness :
    WithinBudget (constrain_image [[[(1:ℚ), 0]]] [[[0, 0]]] 1) [[[0, 0]]] 1 :=
  constrain_image_within_budget [[[(1:ℚ), 0]]] [[[0, 0]]] 1 (by norm_num)
    (List.Forall₂.cons
      (List.Forall₂.cons
        ⟨by norm_num,
         by norm_num [adjustedRange, listMean, listMin, listMax, min_def, max_def]⟩
        List.Forall₂.nil)
      List.Forall₂.nil)

/-- C1 (counterexample): at candidate equal to reference (constant delta) and
max_delta one, the output element is NaN, so the claimed elementwise budget
bound fails even though max_delta is nonnegative. -/
theorem constrain_image_budget_counterexample :
    (0:ℚ) ≤ 1 ∧ ¬ WithinBudget (constrain_image [[[(0:ℚ)]]] [[[0]]] 1) [[[0]]] 1 := by
  refine ⟨by norm_num, ?_⟩
  intro h
  rw [constrain_image_nan_eval] at h
  cases h with
  | cons h₁ _ =>
    cases h₁ with
    | cons h₂ _ =>
      cases h₂ with
      | cons h₃ _ => exact h₃

/-- C2: with candidate equal to reference, the mean-removed delta has zero
range, the rescale divides zero by zero, and constrain_image returns NaN:
the division is not guarded. -/
theorem constrain_image_nan_on_constant_delta :
    constrain_image [[[(0:ℚ)]]] [[[0]]] 1 = [[[ExtQ.nan]]] := constrain_image_nan_eval

/-- The claim-side formulation for C3: each sample processed with a single
joint mean differs from the source on a concrete two-channel sample. -/
theorem constrain_image_mean_counterexample :
    constrain_image [[[(1:ℚ), 3], [2, 2]]] [[[0, 0], [0, 2]]] 10 ≠
      constrain_image_sampleMean [[[(1:ℚ), 3], [2, 2]]] [[[0, 0], [0, 2]]] 10 := by
  have hs : constrain_image [[[(1:ℚ), 3], [2, 2]]] [[[0, 0], [0, 2]]] 10 =
      [[[ExtQ.fin (-1), ExtQ.fin 1], [ExtQ.fin 1, ExtQ.fin 1]]] := by
    norm_num [constrain_image, constrainChannel, constrainChannelWithMean,
      listMean, listMin, listMax, ExtQ.div, ExtQ.mul, ExtQ.clamp, ExtQ.max,
      ExtQ.min, ExtQ.add, min_def, max_def]
  have hj : constrain_image_sampleMean [[[(1:ℚ), 3], [2, 2]]] [[[0, 0], [0, 2]]] 10 =
      [[[ExtQ.fin (-1/2), ExtQ.fin (3/2)], [ExtQ.fin (1/2), ExtQ.fin (1/2)]]] := by
    norm_num [constrain_image_sampleMean, constrainChannelWithMean,
      listMean, listMin, listMax, ExtQ.div, ExtQ.mul, ExtQ.clamp, ExtQ.max,
      ExtQ.min, ExtQ.add, min_def, max_def]
  rw [hs, hj]
  intro h
  simp only [List.cons.injEq, ExtQ.fin.injEq, and_true] at h
  norm_num at h

/-- Specification-style restatement of the mean-bias removal actually
performed by the source: for each sample, the per-channel means of delta are
computed first and each channel is processed with its own mean. -/
def constrain_image_channelMeanSpec (cand ref : List (List (List ℚ))) (d : ℚ) :
    List (List (List ExtQ)) :=
  List.zipWith
    (fun cs rs =>
      let deltas := List.zipWith (fun cc rc => List.zipWith (· - ·) cc rc) cs rs
      let means := deltas.map listMean
      ((cs.zip rs).zip means).map (fun p => constrainChannelWithMean p.1.1 p.1.2 p.2 d))
    cand ref

lemma zipWith_channel_mean (d : ℚ) :
    ∀ (cs rs : List (List ℚ)),
      List.zipWith (fun cc rc => constrainChannel cc rc d) cs rs =
        ((cs.zip rs).zip
            ((List.zipWith (fun cc rc => List.zipWith (· - ·) cc rc) cs rs).map listMean)).map
          (fun p => constrainChannelWithMean p.1.1 p.1.2 p.2 d) := by
  intro cs
  induction cs with
  | nil => intro rs; simp
  | cons c cs ih =>
    intro rs
    cases rs with
    | nil => simp
    | cons r rs =>
      simp only [List.zipWith_cons_cons, List.zip_cons_cons, List.map_cons]
      rw [ih rs]
      rfl

/-- C3 (amended): the mean-bias removal of constrain_image subtracts, for each
sample and each channel, the mean of delta over that channel's spatial
positions — a separate mean per channel, not a single joint mean per
sample. -/
theorem constrain_image_uses_per_channel_mean
    (cand ref : List (List (List ℚ))) (d : ℚ) :
    constrain_image cand ref d = constrain_image_channelMeanSpec cand ref d := by
  unfold constrain_image constrain_image_channelMeanSpec
  induction cand generalizing ref with
  | nil => simp
  | cons cs css ih =>
    cases ref with
    | nil => simp
    | cons rs rss => simpa [ih rss] using zipWith_channel_mean d cs rs

/-!
Control-flow trace of perform_pgd_attack (src/attack/attacks.py) for one
batch: the inner step loop runs num_steps gradient steps unconditionally, and
only afterwards does the scoring block dispatch on attack_type, logging an
error for an unrecognized tag (the function raises nothing itself; the
following diagnostics line then trips over the unbound score variable).
-/

/-- Events in the per-batch control flow of perform_pgd_attack. -/
inductive AttackEvent where
  | pgdStep
  | decodeBaseline
  | decodeMasked
  | undefinedTypeError
deriving DecidableEq, Repr

/-- The per-batch event trace of perform_pgd_attack: the step loop first, the
attack_type dispatch after it, exactly as the source orders them. -/
def pgd_batch_trace (attack_type : String) (num_steps : ℕ) : List AttackEvent :=
  List.replicate num_steps AttackEvent.pgdStep ++
    (if attack_type ∈ ["base_baseline"] then [AttackEvent.decodeBaseline]
     else if attack_type ∈ ["base_secure", "combined_secure", "fixed_secure"] then
       [AttackEvent.decodeMasked]
     else [AttackEvent.undefinedTypeError])

/-- C4: with an unrecognized attack_type and three configured steps, the
trace runs all three PGD steps before the undefined-type error is reached;
the error is not the first event, so the configuration is not rejected before
computation begins. -/
theorem perform_pgd_attack_late_rejection :
    pgd_batch_trace "bogus_type" 3 =
      [AttackEvent.pgdStep, AttackEvent.pgdStep, AttackEvent.pgdStep,
        AttackEvent.undefinedTypeError] ∧
    (pgd_batch_trace "bogus_type" 3).head? ≠ some AttackEvent.undefinedTypeError := by
  constructor <;> decide

/-!
fine_tune_surrogate (src/attack/attacks.py).  The per-epoch training work
(batch loop, perturbation generation, optimizer steps) is abstracted as an
oracle epochRun mapping the epoch index and the current decoder parameters to
the post-epoch parameters and the epoch's average loss; the parameter vector
is abstracted to a single rational.  The best-checkpoint bookkeeping is
embedded exactly.  Aliasing: best_model_state = state_dict().copy() is a
shallow dict copy whose tensors are the live parameter tensors (state_dict
returns references and optimizer.step() updates parameters in place), so the
retained snapshot carries no independent values and the final
load_state_dict(best_model_state) copies the current parameters onto
themselves.  The state therefore records only whether a snapshot was taken.
-/

/-- Mutable loop state of fine_tune_surrogate: current parameters, best loss
so far (none models the initial float infinity), and whether
best_model_state has been set (the snapshot aliases the live parameters and
so stores no values of its own). -/
structure FineTuneState where
  params : ℚ
  best_loss : Option ℚ
  has_snapshot : Bool
deriving DecidableEq, Repr

/-- The comparison avg_epoch_loss < best_loss with best_loss initialized to
float infinity. -/
def beatsBest (loss : ℚ) : Option ℚ → Bool
  | none => true
  | some b => decide (loss < b)

/-- One epoch of fine_tune_surrogate: run the epoch, then update the
best-loss tracking as the source does. -/
def fine_tune_epoch (epochRun : ℕ → ℚ → ℚ × ℚ) (st : FineTuneState)
    (i : ℕ) : FineTuneState :=
  let r := epochRun i st.params
  if beatsBest r.2 st.best_loss then
    { params := r.1, best_loss := some r.2, has_snapshot := true }
  else
    { params := r.1, best_loss := st.best_loss, has_snapshot := st.has_snapshot }

/-- fine_tune_surrogate: run the epochs, then restore the best snapshot if
one was taken.  Because the snapshot tensors alias the live parameters, the
restore copies the last-epoch parameters onto themselves in either case. -/
def fine_tune_surrogate (epochRun : ℕ → ℚ → ℚ × ℚ) (epochs : ℕ) (p0 : ℚ) : ℚ :=
  let final := (List.range epochs).foldl (fine_tune_epoch epochRun) ⟨p0, none, false⟩
  if final.has_snapshot then final.params else final.params

/-- Loop state of the intended best-checkpoint logic, in which the snapshot
is an independent copy of the parameter values. -/
structure FineTuneStateSpec where
  params : ℚ
  best_loss : Option ℚ
  best_params : Option ℚ
deriving DecidableEq, Repr

/-- One epoch of the intended logic: on improvement, store the post-epoch
parameter values themselves. -/
def fine_tune_epoch_spec (epochRun : ℕ → ℚ → ℚ × ℚ) (st : FineTuneStateSpec)
    (i : ℕ) : FineTuneStateSpec :=
  let r := epochRun i st.params
  if beatsBest r.2 st.best_loss then
    { params := r.1, best_loss := some r.2, best_params := some r.1 }
  else
    { params := r.1, best_loss := st.best_loss, best_params := st.best_params }

/-- The fine-tune loop as the spec describes it: the returned parameters are
the stored best-epoch values when a snapshot exists. -/
def fine_tune_surrogate_specRestore (epochRun : ℕ → ℚ → ℚ × ℚ) (epochs : ℕ)
    (p0 : ℚ) : ℚ :=
  let final := (List.range epochs).foldl (fine_tune_epoch_spec epochRun) ⟨p0, none, none⟩
  match final.best_params with
  | some p => p
  | none => final.params

/-- A two-epoch run in which epoch zero has the lower average loss: each
epoch adds ten to the parameters, and the recorded losses are one then
two. -/
def exampleEpochRun : ℕ → ℚ → ℚ × ℚ := fun i p => (p + 10, (i : ℚ) + 1)

/-- C5: on a run whose best epoch is the first of two, fine_tune_surrogate
returns the last-epoch parameters (twenty), not the best-epoch snapshot
values (ten) that the spec's restore would produce. -/
theorem fine_tune_returns_last_epoch_params :
    fine_tune_surrogate exampleEpochRun 2 0 = 20 ∧
    fine_tune_surrogate_specRestore exampleEpochRun 2 0 = 10 ∧
    fine_tune_surrogate exampleEpochRun 2 0 ≠
      fine_tune_surrogate_specRestore exampleEpochRun 2 0 := by
  have hr : List.range 2 = [0, 1] := rfl
  refine ⟨?_, ?_, ?_⟩ <;>
    norm_num [fine_tune_surrogate, fine_tune_surrogate_specRestore, hr,
      fine_tune_epoch, fine_tune_epoch_spec, exampleEpochRun, beatsBest]

/-!
The momentum-PGD update of perform_pgd_attack (src/attack/attacks.py),
embedded per step.  The weighted ensemble gradient produced by the surrogate
backward passes is the oracle input grad; the update and clamp are embedded
exactly: torch.norm(grad, p=1) is a single scalar over the whole batch
tensor, and there is no guard against it being zero.
-/

/-- One PGD step of perform_pgd_attack on the flattened batch tensor: returns
the new momentum buffer and the new (clamped) candidate batch. -/
def pgd_step (momentum_coef alpha max_delta : ℚ) (original : List ℚ)
    (cand momentum grad : List ExtQ) : List ExtQ × List ExtQ :=
  let gnorm := l1norm grad
  let momentum' := List.zipWith
    (fun m g => ExtQ.add (ExtQ.mul (ExtQ.fin momentum_coef) m) (ExtQ.div g gnorm))
    momentum grad
  let stepped := List.zipWith
    (fun x m => ExtQ.sub x (ExtQ.mul (ExtQ.fin alpha) (ExtQ.sign m)))
    cand momentum'
  let clamped := List.zipWith
    (fun x r => ExtQ.clamp x (ExtQ.fin (r - max_delta)) (ExtQ.fin (r + max_delta)))
    stepped original
  (momentum', clamped)

/-- Every element of the list is a finite value. -/
def AllFin (l : List ExtQ) : Prop := ∀ x ∈ l, ∃ q, x = ExtQ.fin q

lemma mem_zipWith_imp {α β γ : Type} {f : α → β → γ} :
    ∀ {l₁ : List α} {l₂ : List β} {x : γ}, x ∈ List.zipWith f l₁ l₂ →
      ∃ a ∈ l₁, ∃ b ∈ l₂, x = f a b := by
  intro l₁
  induction l₁ with
  | nil => intro l₂ x h; simp at h
  | cons a as ih =>
    intro l₂ x h
    cases l₂ with
    | nil => simp at h
    | cons b bs =>
      simp only [List.zipWith_cons_cons, List.mem_cons] at h
      rcases h with h | h
      · exact ⟨a, by simp, b, by simp, h⟩
      · obtain ⟨a', ha', b', hb', hx⟩ := ih h
        exact ⟨a', by simp [ha'], b', by simp [hb'], hx⟩

lemma l1norm_fin {g : List ExtQ} (h : AllFin g) : ∃ s, l1norm g = ExtQ.fin s := by
  induction g with
  | nil => exact ⟨0, rfl⟩
  | cons x xs ih =>
    obtain ⟨q, hq⟩ := h x (by simp)
    obtain ⟨s, hs⟩ := ih (fun z hz => h z (by simp [hz]))
    subst hq
    exact ⟨|q| + s, by simp [l1norm] at hs ⊢; rw [hs]; rfl⟩

lemma box_of_stepped (d : ℚ) (hd : 0 ≤ d) :
    ∀ (original : List ℚ) (st : List ExtQ), AllFin st →
      original.length ≤ st.length →
      List.Forall₂ (FinWithin d)
        (List.zipWith
          (fun x r => ExtQ.clamp x (ExtQ.fin (r - d)) (ExtQ.fin (r + d))) st original)
        original := by
  intro original
  induction original with
  | nil => intro st _ _; simp
  | cons r rs ih =>
    intro st hfin hl
    cases st with
    | nil => simp at hl
    | cons x xs =>
      obtain ⟨q, hq⟩ := hfin x (by simp)
      subst hq
      refine List.Forall₂.cons ?_ (ih xs (fun z hz => hfin z (by simp [hz])) (by simpa using hl))
      show FinWithin d (ExtQ.fin (Min.min (Max.max q (r - d)) (r + d))) r
      show |Min.min (Max.max q (r - d)) (r + d) - r| ≤ d
      rw [abs_le]
      constructor
      · have h₁ : r - d ≤ Max.max q (r - d) := le_max_right _ _
        have h₂ : r - d ≤ r + d := by linarith
        have := le_min h₁ h₂
        linarith
      · have := min_le_right (Max.max q (r - d)) (r + d)
        linarith

/-- C6 (amended): one PGD step with matching shapes, finite candidate,
momentum and gradient values, nonnegative max_delta, and a nonzero gradient
L1 norm leaves every element of the clamped candidate finite and within
max_delta of the original reference batch. -/
theorem pgd_step_box (mu alpha d : ℚ) (original : List ℚ)
    (cand m g : List ExtQ) (hd : 0 ≤ d)
    (hc : AllFin cand) (hm : AllFin m) (hg : AllFin g)
    (hlo : original.length = cand.length) (hlm : m.length = cand.length)
    (hlg : g.length = cand.length)
    (hn : l1norm g ≠ ExtQ.fin 0) :
    List.Forall₂ (FinWithin d) (pgd_step mu alpha d original cand m g).2 original := by
  obtain ⟨s, hs⟩ := l1norm_fin hg
  have hs0 : s ≠ 0 := by
    intro h
    exact hn (by rw [hs, h])
  unfold pgd_step
  simp only [hs]
  apply box_of_stepped d hd
  · intro x hx
    obtain ⟨a, ha, b, hb, hab⟩ := mem_zipWith_imp hx
    obtain ⟨qa, hqa⟩ := hc a ha
    obtain ⟨am, ham, ag, hag, habg⟩ := mem_zipWith_imp hb
    obtain ⟨qm, hqm⟩ := hm am ham
    obtain ⟨qg, hqg⟩ := hg ag hag
    subst hqa hqm hqg
    have hb' : b = ExtQ.fin (mu * qm + qg / s) := by
      rw [habg, div_fin_of_ne hs0]
      rfl
    refine ⟨qa + -(alpha *
      (if (mu * qm + qg / s) < 0 then -1
       else if (mu * qm + qg / s) = 0 then 0 else 1)), ?_⟩
    rw [hab, hb']
    rfl
  · simp only [List.length_zipWith, hlm, hlg, hlo]
    omega

/-- Witness for C6's amended theorem: a one-element batch with zero candidate
and momentum and gradient one stays inside the box of radius one half. -/
theorem pgd_step_box_witness :
    List.Forall₂ (FinWithin (1/2))
      ((pgd_step (9/10) (1/100) (1/2) [0] [ExtQ.fin 0] [ExtQ.fin 0] [ExtQ.fin 1]).2)
      [0] := by
  apply pgd_step_box
  · norm_num
  · intro x hx
    rw [List.mem_singleton] at hx
    exact ⟨0, hx⟩
  · intro x hx
    rw [List.mem_singleton] at hx
    exact ⟨0, hx⟩
  · intro x hx
    rw [List.mem_singleton] at hx
    exact ⟨1, hx⟩
  · rfl
  · rfl
  · rfl
  · norm_num [l1norm, ExtQ.abs, ExtQ.add]

/-- C6 (counterexample): with an all-zero ensemble gradient the division by
the zero L1 norm makes the momentum, the stepped candidate and the clamped
candidate NaN, so the box invariant fails after the clamp even though
max_delta is nonnegative. -/
theorem pgd_step_box_zero_grad_counterexample :
    (0:ℚ) ≤ 1/2 ∧
    (pgd_step (9/10) 1 (1/2) [0] [ExtQ.fin 0] [ExtQ.fin 0] [ExtQ.fin 0]).2 = [ExtQ.nan] ∧
    ¬ List.Forall₂ (FinWithin (1/2))
        ((pgd_step (9/10) 1 (1/2) [0] [ExtQ.fin 0] [ExtQ.fin 0] [ExtQ.fin 0]).2) [0] := by
  have h : (pgd_step (9/10) 1 (1/2) [0] [ExtQ.fin 0] [ExtQ.fin 0] [ExtQ.fin 0]).2 =
      [ExtQ.nan] := by
    norm_num [pgd_step, l1norm, ExtQ.add, ExtQ.mul, ExtQ.div, ExtQ.sub,
      ExtQ.neg, ExtQ.sign, ExtQ.abs, ExtQ.clamp, ExtQ.max, ExtQ.min]
  refine ⟨by norm_num, h, ?_⟩
  rw [h]
  intro hf
  cases hf with
  | cons h₁ _ => exact h₁

/-- C10: on a batch where every surrogate input gradient is exactly zero, the
unguarded division by the gradient L1 norm makes every momentum element NaN,
the candidate batch becomes NaN, and the box clamp leaves it NaN: no element
is a finite value within the box. -/
theorem pgd_step_zero_grad_nan :
    (pgd_step (1/2) (1/4) 1 [0, 0] [ExtQ.fin 0, ExtQ.fin 0]
        [ExtQ.fin 0, ExtQ.fin 0] [ExtQ.fin 0, ExtQ.fin 0]).1 =
      [ExtQ.nan, ExtQ.nan] ∧
    (pgd_step (1/2) (1/4) 1 [0, 0] [ExtQ.fin 0, ExtQ.fin 0]
        [ExtQ.fin 0, ExtQ.fin 0] [ExtQ.fin 0, ExtQ.fin 0]).2 =
      [ExtQ.nan, ExtQ.nan] ∧
    ¬ List.Forall₂ (FinWithin 1)
        ((pgd_step (1/2) (1/4) 1 [0, 0] [ExtQ.fin 0, ExtQ.fin 0]
            [ExtQ.fin 0, ExtQ.fin 0] [ExtQ.fin 0, ExtQ.fin 0]).2) [0, 0] := by
  have h₁ : (pgd_step (1/2) (1/4) 1 [0, 0] [ExtQ.fin 0, ExtQ.fin 0]
      [ExtQ.fin 0, ExtQ.fin 0] [ExtQ.fin 0, ExtQ.fin 0]).1 = [ExtQ.nan, ExtQ.nan] := by
    norm_num [pgd_step, l1norm, ExtQ.add, ExtQ.mul, ExtQ.div, ExtQ.sub,
      ExtQ.neg, ExtQ.sign, ExtQ.abs, ExtQ.clamp, ExtQ.max, ExtQ.min]
  have h₂ : (pgd_step (1/2) (1/4) 1 [0, 0] [ExtQ.fin 0, ExtQ.fin 0]
      [ExtQ.fin 0, ExtQ.fin 0] [ExtQ.fin 0, ExtQ.fin 0]).2 = [ExtQ.nan, ExtQ.nan] := by
    norm_num [pgd_step, l1norm, ExtQ.add, ExtQ.mul, ExtQ.div, ExtQ.sub,
      ExtQ.neg, ExtQ.sign, ExtQ.abs, ExtQ.clamp, ExtQ.max, ExtQ.min]
  refine ⟨h₁, h₂, ?_⟩
  rw [h₂]
  intro hf
  cases hf with
  | cons h _ => exact h

/-!
generate_csprng_bytes (src/test_key.py): HMAC-SHA256 in counter mode.
Bytes are naturals below 256; SHA-256 and HMAC are embedded in full, with
32-bit words as naturals reduced modulo 2 to the 32.
-/

/-- Reduce to a 32-bit word. -/
def u32 (x : ℕ) : ℕ := x % 4294967296

/-- Bitwise complement on 32-bit words. -/
def bnot32 (x : ℕ) : ℕ := x ^^^ 0xFFFFFFFF

/-- Rotate a 32-bit word right by n. -/
def rotr (n w : ℕ) : ℕ := u32 ((w >>> n) ||| (w <<< (32 - n)))

/-- SHA-256 choose function. -/
def sha_ch (x y z : ℕ) : ℕ := (x &&& y) ^^^ (bnot32 x &&& z)

/-- SHA-256 majority function. -/
def sha_maj (x y z : ℕ) : ℕ := (x &&& y) ^^^ (x &&& z) ^^^ (y &&& z)

/-- SHA-256 big sigma zero. -/
def bsig0 (w : ℕ) : ℕ := rotr 2 w ^^^ rotr 13 w ^^^ rotr 22 w

/-- SHA-256 big sigma one. -/
def bsig1 (w : ℕ) : ℕ := rotr 6 w ^^^ rotr 11 w ^^^ rotr 25 w

/-- SHA-256 small sigma zero. -/
def ssig0 (w : ℕ) : ℕ := rotr 7 w ^^^ rotr 18 w ^^^ (w >>> 3)

/-- SHA-256 small sigma one. -/
def ssig1 (w : ℕ) : ℕ := rotr 17 w ^^^ rotr 19 w ^^^ (w >>> 10)

/-- SHA-256 round constants (FIPS 180-4, written in decimal). -/
def K64 : List ℕ :=
  [1116352408, 1899447441, 3049323471, 3921009573,
   961987163, 1508970993, 2453635748, 2870763221,
   3624381080, 310598401, 607225278, 1426881987,
   1925078388, 2162078206, 2614888103, 3248222580,
   3835390401, 4022224774, 264347078, 604807628,
   770255983, 1249150122, 1555081692, 1996064986,
   2554220882, 2821834349, 2952996808, 3210313671,
   3336571891, 3584528711, 113926993, 338241895,
   666307205, 773529912, 1294757372, 1396182291,
   1695183700, 1986661051, 2177026350, 2456956037,
   2730485921, 2820302411, 3259730800, 3345764771,
   3516065817, 3600352804, 4094571909, 275423344,
   430227734, 506948616, 659060556, 883997877,
   958139571, 1322822218, 1537002063, 1747873779,
   1955562222, 2024104815, 2227730452, 2361852424,
   2428436474, 2756734187, 3204031479, 3329325298]

/-- A 32-bit word as four big-endian bytes. -/
def wordToBytesBE (w : ℕ) : List ℕ :=
  [(w >>> 24) % 256, (w >>> 16) % 256, (w >>> 8) % 256, w % 256]

/-- Four big-endian bytes as a 32-bit word. -/
def bytesToWordBE (a b c d : ℕ) : ℕ := ((a * 256 + b) * 256 + c) * 256 + d

/-- A byte list as big-endian 32-bit words (groups of four). -/
def toWordsBE : List ℕ → List ℕ
  | a :: b :: c :: d :: rest => bytesToWordBE a b c d :: toWordsBE rest
  | _ => []

/-- An integer as a fixed-width big-endian byte list, embedding the Python
int.to_bytes(len, byteorder = big) calls. -/
def intToBytesBE (len n : ℕ) : List ℕ :=
  (List.range len).map (fun i => (n >>> (8 * (len - 1 - i))) % 256)

/-- Split a byte list into 64-byte blocks. -/
def chunks64 (l : List ℕ) : List (List ℕ) :=
  match l with
  | [] => []
  | h :: t => (h :: t).take 64 :: chunks64 ((h :: t).drop 64)
 termination_by l.length
 decreasing_by
  simp only [List.length_drop, List.length_cons]
  omega

/-- SHA-256 message padding: append the 0x80 marker, zeros to 56 mod 64, and
the bit length as eight big-endian bytes. -/
def sha256pad (msg : List ℕ) : List ℕ :=
  let L := msg.length
  let z := (64 - ((L + 9) % 64)) % 64
  msg ++ [128] ++ List.replicate z 0 ++ intToBytesBE 8 (8 * L)

/-- SHA-256 working state: eight 32-bit words. -/
structure Hash8 where
  a : ℕ
  b : ℕ
  c : ℕ
  d : ℕ
  e : ℕ
  f : ℕ
  g : ℕ
  h : ℕ
deriving DecidableEq, Repr

/-- SHA-256 initial hash value (FIPS 180-4, written in decimal). -/
def initH : Hash8 :=
  ⟨1779033703, 3144134277, 1013904242, 2773480762,
   1359893119, 2600822924, 528734635, 1541459225⟩

/-- SHA-256 message schedule: extend 16 words to 64. -/
def schedule (ws : List ℕ) : List ℕ :=
  (List.range 48).foldl
    (fun acc t =>
      acc ++ [u32 (ssig1 (acc.getD (t + 14) 0) + acc.getD (t + 9) 0 +
        ssig0 (acc.getD (t + 1) 0) + acc.getD t 0)])
    ws

/-- One SHA-256 compression round. -/
def compressStep (s : Hash8) (kw : ℕ × ℕ) : Hash8 :=
  let T1 := u32 (s.h + bsig1 s.e + sha_ch s.e s.f s.g + kw.1 + kw.2)
  let T2 := u32 (bsig0 s.a + sha_maj s.a s.b s.c)
  ⟨u32 (T1 + T2), s.a, s.b, s.c, u32 (s.d + T1), s.e, s.f, s.g⟩

/-- SHA-256 compression of one 64-byte block into the running state. -/
def compressBlock (s : Hash8) (block : List ℕ) : Hash8 :=
  let ws := schedule (toWordsBE block)
  let t := (K64.zip ws).foldl compressStep s
  ⟨u32 (s.a + t.a), u32 (s.b + t.b), u32 (s.c + t.c), u32 (s.d + t.d),
   u32 (s.e + t.e), u32 (s.f + t.f), u32 (s.g + t.g), u32 (s.h + t.h)⟩

/-- SHA-256 of a byte list, as a 32-byte list. -/
def sha256 (msg : List ℕ) : List ℕ :=
  let final := (chunks64 (sha256pad msg)).foldl compressBlock initH
  wordToBytesBE final.a ++ wordToBytesBE final.b ++ wordToBytesBE final.c ++
    wordToBytesBE final.d ++ wordToBytesBE final.e ++ wordToBytesBE final.f ++
    wordToBytesBE final.g ++ wordToBytesBE final.h

lemma sha256_length (msg : List ℕ) : (sha256 msg).length = 32 := by
  simp [sha256, wordToBytesBE]

/-- HMAC-SHA256, embedding Python hmac.new(key, msg, hashlib.sha256): hash
keys longer than the 64-byte block, zero-pad, and run the nested hashes with
the ipad and opad masks. -/
def hmac_sha256 (key msg : List ℕ) : List ℕ :=
  let k0 := if 64 < key.length then sha256 key else key
  let kpad := k0 ++ List.replicate (64 - k0.length) 0
  let ipad := kpad.map (fun x => x ^^^ 54)
  let opad := kpad.map (fun x => x ^^^ 92)
  sha256 (opad ++ sha256 (ipad ++ msg))

lemma hmac_sha256_length (key msg : List ℕ) : (hmac_sha256 key msg).length = 32 := by
  simp [hmac_sha256, sha256_length]

/-- The while loop of generate_csprng_bytes (src/test_key.py): append
HMAC-SHA256 blocks of the 4-byte big-endian counter until at least num_bytes
bytes are accumulated. -/
def csprngLoop (key : List ℕ) (num_bytes : ℕ) (result : List ℕ) (counter : ℕ) :
    List ℕ :=
  if h : result.length < num_bytes then
    csprngLoop key num_bytes (result ++ hmac_sha256 key (intToBytesBE 4 counter))
      (counter + 1)
  else result
 termination_by num_bytes - result.length
 decreasing_by
  simp only [List.length_append, hmac_sha256_length]
  omega

/-- generate_csprng_bytes (src/test_key.py): run the counter-mode loop and
truncate to the exact requested size. -/
def generate_csprng_bytes (key : List ℕ) (num_bytes : ℕ) : List ℕ :=
  (csprngLoop key num_bytes [] 0).take num_bytes

lemma csprngLoop_length_ge (key : List ℕ) (n : ℕ) :
    ∀ (fuel : ℕ) (acc : List ℕ) (counter : ℕ), n - acc.length ≤ fuel →
      n ≤ (csprngLoop key n acc counter).length := by
  intro fuel
  induction fuel with
  | zero =>
    intro acc counter hf
    unfold csprngLoop
    have hge : ¬ acc.length < n := by omega
    simp [hge]
    omega
  | succ m ih =>
    intro acc counter hf
    unfold csprngLoop
    split
    · next hlt =>
      apply ih
      simp only [List.length_append, hmac_sha256_length]
      omega
    · next hge => omega

/-- C8: generate_csprng_bytes is deterministic (it is a pure function of the
key and the requested length), returns exactly num_bytes bytes for every
requested length, and equals the truncation of the concatenated HMAC counter
blocks to the requested size. -/
theorem generate_csprng_bytes_deterministic_and_length
    (key : List ℕ) (num_bytes : ℕ) :
    generate_csprng_bytes key num_bytes = generate_csprng_bytes key num_bytes ∧
    (generate_csprng_bytes key num_bytes).length = num_bytes ∧
    generate_csprng_bytes key num_bytes =
      (csprngLoop key num_bytes [] 0).take num_bytes := by
  refine ⟨rfl, ?_, rfl⟩
  have h := csprngLoop_length_ge key num_bytes num_bytes [] 0 (by simp)
  simp [generate_csprng_bytes]
  omega

/-!
CryptoCNN and generate_mask_secret_key (src/utils/key.py).  The external
primitives (numpy generator bytes, the ChaCha20 cipher, the CPython seeded
random stream, the float square root) are modelled as explicit deterministic
functions: their exact streams live outside the repository, and the claims
settled here depend only on the pipeline being a pure function of the seed
and shape and on the cipher's documented key-size check.
-/

/-- Layer shapes of CryptoCNN as (in_channels, out_channels), kernel 3x3:
conv1 maps the image channels to 64, conv2 to conv4 are 64 to 64, conv5 maps
back to the image channels. -/
def cryptoCNN_layer_shapes (channels : ℕ) : List (ℕ × ℕ) :=
  [(channels, 64), (64, 64), (64, 64), (64, 64), (64, channels)]

/-- Total trainable parameter count of CryptoCNN: per layer, out*in*3*3
weights plus out biases. -/
def total_params (channels : ℕ) : ℕ :=
  ((cryptoCNN_layer_shapes channels).map (fun p => p.2 * p.1 * 9 + p.2)).sum

/-- Modelled from the spec: the reproducibly generated plaintext seed block,
numpy default_rng(seed=0).bytes(n).  A fixed deterministic byte stream
standing in for the external generator; only its determinism matters here. -/
def numpy_rng0_bytes (n : ℕ) : List ℕ :=
  (List.range n).map (fun i => (i * 97 + 13) % 256)

/-- Modelled from the spec: the ChaCha20 keystream for the given key under
the fixed all-zero nonce, a deterministic function of the key (stand-in
mixing for the external cipher). -/
def chacha20_keystream (key : List ℕ) (n : ℕ) : List ℕ :=
  (List.range n).map (fun i => (key.getD (i % 32) 0 + i * 31 + key.sum) % 256)

/-- ChaCha20 encryption: XOR the plaintext with the keystream. -/
def chacha20_encrypt (key pt : List ℕ) : List ℕ :=
  List.zipWith (fun a b => a ^^^ b) pt (chacha20_keystream key pt.length)

/-- Error raised by the cipher construction for a wrong-size key. -/
inductive KDFError where
  | InvalidKeyLength
deriving DecidableEq, Repr

/-- Modelled from the spec: ChaCha20.new rejects any key that is not exactly
32 bytes, failing with the invalid-key-length error. -/
def ChaCha20_new (key : List ℕ) : Except KDFError Unit :=
  if key.length = 32 then Except.ok () else Except.error KDFError.InvalidKeyLength

/-- The key-derivation step of CryptoCNN._init_layers_with_scaling
(src/utils/key.py): generate the seed bytes, truncate the binary key to 32
bytes, construct the ChaCha20 cipher, and encrypt the seed. -/
def init_layers_key_derivation (channels : ℕ) (binary_key : List ℕ) :
    Except KDFError (List ℕ) :=
  let seed := numpy_rng0_bytes (total_params channels * 4)
  let chacha_key := binary_key.take 32
  match ChaCha20_new chacha_key with
  | Except.error e => Except.error e
  | Except.ok _ => Except.ok (chacha20_encrypt chacha_key seed)

/-- C9: a secret shorter than the 32 bytes required by the ChaCha20
construction makes the key-derivation step fail with InvalidKeyLength: the
[:32] truncation leaves the short key short, and the cipher constructor
rejects it. -/
theorem short_key_invalid_length (channels : ℕ) (binary_key : List ℕ)
    (h : binary_key.length < 32) :
    init_layers_key_derivation channels binary_key =
      Except.error KDFError.InvalidKeyLength := by
  unfold init_layers_key_derivation ChaCha20_new
  have hcond : ¬ 32 ≤ binary_key.length := by omega
  simp [List.length_take, hcond]

/-- Witness for C9 at a concrete three-byte secret. -/
theorem short_key_invalid_length_witness :
    init_layers_key_derivation 3 [1, 2, 3] = Except.error KDFError.InvalidKeyLength :=
  short_key_invalid_length 3 [1, 2, 3] (by norm_num)

/-- The ciphertext reinterpreted as big-endian unsigned 32-bit integers and
normalized to [0, 1] by dividing by the maximal 32-bit value. -/
def normalized_floats (cipher : List ℕ) : List ℚ :=
  (toWordsBE cipher).map (fun w => (w : ℚ) / 4294967295)

/-- Modelled deterministic float square root (np.sqrt): a fixed-point
Nat.sqrt approximation standing in for the external IEEE operation; only its
determinism matters for the properties proved here. -/
def fsqrt (n : ℕ) : ℚ := (Nat.sqrt (n * 2 ^ 46) : ℚ) / 2 ^ 23

/-- Weights and biases of one convolution layer, weights flat in
(out_channel, in_channel, kernel_row, kernel_col) order. -/
structure LayerParams where
  weight : List ℚ
  bias : List ℚ
deriving DecidableEq, Repr

/-- The pointer walk of _init_layers_with_scaling: consume each layer's
weights then biases from the normalized float stream, scaling each value u to
u * 2 * bound - bound with bound = 1 / sqrt(fan_in) and
fan_in = in_channels * 3 * 3. -/
def init_layers_scaled (channels : ℕ) (norm : List ℚ) : List LayerParams :=
  ((cryptoCNN_layer_shapes channels).foldl
    (fun acc shape =>
      let fan_in := shape.1 * 9
      let bound : ℚ := 1 / fsqrt fan_in
      let weight_size := shape.2 * shape.1 * 9
      let ws := ((norm.drop acc.2).take weight_size).map (fun u => u * 2 * bound - bound)
      let bs := ((norm.drop (acc.2 + weight_size)).take shape.2).map
        (fun u => u * 2 * bound - bound)
      (acc.1 ++ [LayerParams.mk ws bs], acc.2 + weight_size + shape.2))
    ([], 0)).1

/-- CryptoCNN._init_layers_with_scaling: derive the cipher stream from the
binary key and initialize every layer from it. -/
def init_layers_with_scaling (channels : ℕ) (binary_key : List ℕ) :
    List LayerParams :=
  let seed := numpy_rng0_bytes (total_params channels * 4)
  let cipher := chacha20_encrypt (binary_key.take 32) seed
  init_layers_scaled channels (normalized_floats cipher)

/-- Modelled from the spec: random.seed(seed) followed by
random.getrandbits(256), a deterministic function of the integer seed
(stand-in mixing for the external seeded stream). -/
def python_seeded_randbits256 (seed : ℕ) : ℕ :=
  (seed * 6364136223846793005 + 1442695040888963407) % (2 ^ 256)

/-- generate_mask_secret_key (src/utils/key.py): derive the 256-bit binary
key from the seed via the seeded stream and to_bytes(32, big), then build the
CryptoCNN parameters from it; freezing requires_grad is a no-op in the pure
model.  Of the image shape tuple only the channel count is used. -/
def generate_mask_secret_key (channels seed : ℕ) : List LayerParams :=
  let binary_key := intToBytesBE 32 (python_seeded_randbits256 seed)
  init_layers_with_scaling channels binary_key

/-- Zero-padded pixel access into a (channel, row, col) tensor. -/
def pix (img : List (List (List ℚ))) (i : ℕ) (y x : ℤ) : ℚ :=
  if y < 0 ∨ x < 0 then 0
  else ((img.getD i []).getD y.toNat []).getD x.toNat 0

/-- nn.Conv2d with kernel 3 and padding 1 over a (channel, row, col)
tensor. -/
def conv2d3x3 (inC outC : ℕ) (p : LayerParams) (img : List (List (List ℚ))) :
    List (List (List ℚ)) :=
  let H := (img.getD 0 []).length
  let W := ((img.getD 0 []).getD 0 []).length
  (List.range outC).map (fun o =>
    (List.range H).map (fun y =>
      (List.range W).map (fun x =>
        p.bias.getD o 0 +
          ((List.range inC).map (fun i =>
            ((List.range 3).map (fun ky =>
              ((List.range 3).map (fun kx =>
                p.weight.getD (((o * inC + i) * 3 + ky) * 3 + kx) 0 *
                  pix img i ((y : ℤ) + ky - 1) ((x : ℤ) + kx - 1))).sum)).sum)).sum)))

/-- ReLU applied elementwise. -/
def reluT (t : List (List (List ℚ))) : List (List (List ℚ)) :=
  t.map (fun c => c.map (fun row => row.map (fun v => Max.max v 0)))

/-- CryptoCNN.forward: relu after each of the first four convolutions, none
after the fifth. -/
def cryptoCNN_forward (channels : ℕ) (ps : List LayerParams)
    (x : List (List (List ℚ))) : List (List (List ℚ)) :=
  let x1 := reluT (conv2d3x3 channels 64 (ps.getD 0 ⟨[], []⟩) x)
  let x2 := reluT (conv2d3x3 64 64 (ps.getD 1 ⟨[], []⟩) x1)
  let x3 := reluT (conv2d3x3 64 64 (ps.getD 2 ⟨[], []⟩) x2)
  let x4 := reluT (conv2d3x3 64 64 (ps.getD 3 ⟨[], []⟩) x3)
  conv2d3x3 64 channels (ps.getD 4 ⟨[], []⟩) x4

/-- mask_image_with_key (src/utils/key.py): per-sample min-max normalization
over channel and spatial dims with the 1e-8 epsilon, then the CNN. -/
def mask_image_with_key (images : List (List (List (List ℚ)))) (channels : ℕ)
    (cnn_key : List LayerParams) : List (List (List (List ℚ))) :=
  images.map (fun img =>
    let flat := img.flatten.flatten
    let mn := listMin flat
    let mx := listMax flat
    let normalized := img.map (fun c => c.map (fun row => row.map
      (fun v => (v - mn) / (mx - mn + 1 / 100000000))))
    cryptoCNN_forward channels cnn_key normalized)

/-- C7: the mask-network construction and application are pure functions:
two networks built from the same seed and the same image shape (channel
count) have identical parameters, and applying a mask network to the same
input twice yields identical outputs; no step of the embedded pipeline reads
any input other than the seed, the shape, the parameters and the image. -/
theorem mask_network_deterministic (c₁ c₂ s₁ s₂ : ℕ)
    (imgs₁ imgs₂ : List (List (List (List ℚ)))) (ps : List LayerParams)
    (hs : s₁ = s₂) (hc : c₁ = c₂) (him : imgs₁ = imgs₂) :
    generate_mask_secret_key c₁ s₁ = generate_mask_secret_key c₂ s₂ ∧
    mask_image_with_key imgs₁ c₁ ps = mask_image_with_key imgs₂ c₁ ps := by
  subst hs hc him
  exact ⟨rfl, rfl⟩

/-- Witness for C7 at concrete seed, shape and image. -/
theorem mask_network_deterministic_witness :
    generate_mask_secret_key 1 7 = generate_mask_secret_key 1 7 ∧
    mask_image_with_key [[[[0]]]] 1 [] = mask_image_with_key [[[[0]]]] 1 [] :=
  mask_network_deterministic 1 1 7 7 [[[[0]]]] [[[[0]]]] [] rfl rfl rfl
